import Mathlib

set_option maxRecDepth 10000

/-!
Verification of the staged article-generation orchestrator in
`scripts/generate_article.py`.

Strings are modelled as `List Char`.  The script's regular-expression
operations (`re.search`, `re.sub`, `re.findall` on two fixed patterns) are
embedded as executable scanning functions whose semantics were derived from
the Python `re` engine's leftmost-match / greedy / lazy backtracking rules
for those exact patterns.  Python's `\s`, `str.strip()` and `str.split()`
are modelled over their ASCII whitespace set (the inputs of interest are
ASCII; the Unicode extension is identical in structure).  Network and
generative-service effects are modelled as explicit oracle parameters.
-/

/-- ASCII whitespace, as matched by Python's `\s`, `str.strip()` and
`str.split()` on the inputs of interest. -/
def pySpace (c : Char) : Bool :=
  c = ' ' || c = '\t' || c = '\n' || c = '\r' || c = '\x0b' || c = '\x0c'

/-- Python `str.strip()`: remove leading and trailing whitespace. -/
def pyStrip (l : List Char) : List Char :=
  ((l.dropWhile pySpace).reverse.dropWhile pySpace).reverse

/-- Python `str.strip(chars)`: remove leading and trailing characters drawn
from `cut`. -/
def pyStripChars (cut : List Char) (l : List Char) : List Char :=
  ((l.dropWhile cut.contains).reverse.dropWhile cut.contains).reverse

/-- Helper for `pySplit`: accumulates the current token (reversed) in `acc`. -/
def splitWsAux : List Char → List Char → List (List Char)
  | [], acc => if acc.isEmpty then [] else [acc.reverse]
  | c :: cs, acc =>
    if pySpace c then
      if acc.isEmpty then splitWsAux cs [] else acc.reverse :: splitWsAux cs []
    else splitWsAux cs (c :: acc)

/-- Python `str.split()` with no argument: maximal runs of non-whitespace
characters, no empty tokens. -/
def pySplit (l : List Char) : List (List Char) :=
  splitWsAux l []

/-- Python `str.lower()` (ASCII fold, as applied to the article-type names). -/
def pyLower (l : List Char) : List Char :=
  l.map Char.toLower

/-- Decimal rendering of a natural number, as Python's string interpolation
of an `int`. -/
def natChars (n : Nat) : List Char :=
  (Nat.repr n).data

/-! ## Response Parser (`parse_article_response`, lines 503-516)

The script runs `re.search(r'HASHTAGS:\s*(.+?)$', response, re.MULTILINE |
re.DOTALL)` and, on success, `re.sub` with the same pattern.  For this
pattern the engine's behaviour is: the match starts at the first occurrence
of the literal `HASHTAGS:` that has at least one character after it
(an occurrence at the very end of the text cannot complete the match);
greedy `\s*` takes the maximal whitespace run after the marker; lazy
`(.+?)$` then takes the shortest non-empty stretch ending at an
end-of-line position, i.e. the text up to (excluding) the first newline
after that whitespace — except that when everything after the marker is
whitespace, backtracking of `\s*` leaves exactly the last character as the
group.  `re.sub` removes every such non-overlapping match, scanning left to
right.  This semantics was cross-checked exhaustively against CPython's
`re` on randomized inputs. -/

/-- The fixed marker token `HASHTAGS:` delimiting the hashtag line. -/
def hashtagsMarker : List Char := ['H', 'A', 'S', 'H', 'T', 'A', 'G', 'S', ':']

/-- True when the regex `HASHTAGS:\s*(.+?)$` can match starting exactly at
the head of `l`: the marker is a prefix and at least one character follows
it. -/
def liveMarkerAt (l : List Char) : Bool :=
  hashtagsMarker.isPrefixOf l && !(l.drop 9).isEmpty

/-- Tail after the matched marker of the first position at which the search
pattern matches, or `none` when `re.search` fails. -/
def findMarkerTail : List Char → Option (List Char)
  | [] => none
  | c :: cs =>
    if liveMarkerAt (c :: cs) then some ((c :: cs).drop 9) else findMarkerTail cs

/-- Group 1 of the match whose post-marker tail is `r`: the first line of
text after the whitespace run following the marker (the last character of
`r` when `r` is all whitespace). -/
def markerGroup (r : List Char) : List Char :=
  let rest := r.dropWhile pySpace
  if rest.isEmpty then
    match r.getLast? with
    | some c => [c]
    | none => []
  else rest.takeWhile (fun c => c != '\n')

/-- Number of characters of `r` consumed by `\s*(.+?)$` in a match whose
post-marker tail is `r`. -/
def markerMatchLen (r : List Char) : Nat :=
  let rest := r.dropWhile pySpace
  if rest.isEmpty then r.length
  else (r.takeWhile pySpace).length + (rest.takeWhile (fun c => c != '\n')).length

/-- Scanner implementing `re.sub(r'HASHTAGS:\s*.+?$', '', s, MULTILINE |
DOTALL)`: a positive `skip` means we are inside a region already consumed by
a match (dropped from the output). -/
def subGo : List Char → Nat → List Char
  | [], _ => []
  | _ :: cs, k + 1 => subGo cs k
  | c :: cs, 0 =>
    if liveMarkerAt (c :: cs) then subGo cs (8 + markerMatchLen ((c :: cs).drop 9))
    else c :: subGo cs 0

/-- The `re.sub` call of `parse_article_response`: remove every match of
`HASHTAGS:\s*.+?$` from the text. -/
def subHashtags (l : List Char) : List Char :=
  subGo l 0

/-- `parse_article_response(response)` (lines 503-516): returns
`(content, hashtags)`. -/
def parse_article_response (response : List Char) : List Char × List (List Char) :=
  match findMarkerTail response with
  | none => (response, [])
  | some r =>
    let hashtags_text := pyStrip (markerGroup r)
    let hashtags := ((pySplit hashtags_text).filter
        (fun tag => !(pyStrip tag).isEmpty)).map pyStrip
    (pyStrip (subHashtags response), hashtags)

example : parse_article_response "abc".data = ("abc".data, []) := by decide

example : parse_article_response "body\nHASHTAGS: #a #b".data
    = ("body".data, ["#a".data, "#b".data]) := by decide

example : parse_article_response "body\nHASHTAGS: #a\ntrailing".data
    = ("body\n\ntrailing".data, ["#a".data]) := by decide

example : parse_article_response "intro\nHASHTAGS:\nConclusion para\nmore".data
    = ("intro\n\nmore".data, ["Conclusion".data, "para".data]) := by decide

/-! ## Link Utilities (`extract_links` and `verify_link`, lines 134-148)

`extract_links` runs `re.findall` with the pattern
`https?://[^\s<>"\x7b\x7d|\\^\x60\[\]]+[^\s<>"\x7b\x7d|\\^\x60\[\].,;:!?]`.
`findall` scans left to right, attempting a match at each position and
continuing after each match.  At one position the pattern matches iff the
text starts with `https://` or `http://` followed by the maximal run of
characters allowed by the first class, with its maximal trailing run of
`.,;:!?` characters backtracked away, provided at least two characters
remain.  This was cross-checked against CPython's `re.findall` on
randomized inputs. -/

/-- Characters admitted by the first character class of the URL pattern:
everything except whitespace and `<>"\x7b\x7d|\\^\x60[]`. -/
def urlChar (c : Char) : Bool :=
  !(pySpace c || c = '<' || c = '>' || c = '\x22' || c = '\x7b' || c = '\x7d' ||
    c = '|' || c = '\x5c' || c = '^' || c = '\x60' || c = '[' || c = ']')

/-- The additional characters excluded by the final character class: a match
cannot end in one of `.,;:!?`. -/
def trailPunct (c : Char) : Bool :=
  c = '.' || c = ',' || c = ';' || c = ':' || c = '!' || c = '?'

/-- The literal `http://`. -/
def httpScheme : List Char := ['h', 't', 't', 'p', ':', '/', '/']

/-- The literal `https://`. -/
def httpsScheme : List Char := ['h', 't', 't', 'p', 's', ':', '/', '/']

/-- Attempt to match the URL pattern anchored at the head of `l`; returns the
full match.  `scheme ++` the maximal `urlChar` run with its trailing
punctuation backtracked away, when at least two body characters remain. -/
def tryMatchBody (scheme rest : List Char) : Option (List Char) :=
  let run := rest.takeWhile urlChar
  let body := (run.reverse.dropWhile trailPunct).reverse
  if 2 ≤ body.length then some (scheme ++ body) else none

/-- Match of the URL pattern at the head of `l` (preferring `https://`, as
the greedy `s?` does), or `none`. -/
def tryMatch (l : List Char) : Option (List Char) :=
  if httpsScheme.isPrefixOf l then tryMatchBody httpsScheme (l.drop 8)
  else if httpScheme.isPrefixOf l then tryMatchBody httpScheme (l.drop 7)
  else none

/-- Scanner implementing `re.findall` for the URL pattern: a positive `skip`
means we are inside a region already consumed by a match. -/
def extractGo : List Char → Nat → List (List Char)
  | [], _ => []
  | _ :: cs, k + 1 => extractGo cs k
  | c :: cs, 0 =>
    match tryMatch (c :: cs) with
    | some m => m :: extractGo cs (m.length - 1)
    | none => extractGo cs 0

/-- `extract_links(text)` (lines 134-138): all matches of the URL pattern in
order of occurrence, duplicates retained. -/
def extract_links (l : List Char) : List (List Char) :=
  extractGo l 0

example : extract_links "see http://ab.cd, and http://ab".data
    = ["http://ab.cd".data, "http://ab".data] := by decide

example : extract_links "(http://ab)".data = ["http://ab)".data] := by decide

example : extract_links "x http://a y".data = [] := by decide

example : extract_links "https://x.y/z https://x.y/z".data
    = ["https://x.y/z".data, "https://x.y/z".data] := by decide

/-! ## `verify_link` (lines 141-148)

The network probe is an external effect; it is modelled as an oracle giving,
per URL, either the final response status of a successful `urlopen` or the
outcome that `urlopen` (or request construction) raised.  The `except`
clause of `verify_link` catches `Exception`, i.e. every error the probe can
raise (`URLError`, `HTTPError`, `ValueError` for malformed URLs, timeouts),
so the function is total — modelled here by `verify_link` being a total
function into `Bool`. -/

/-- Outcome of one network reachability probe. -/
inductive ProbeOutcome where
  /-- `urlopen` succeeded and the response carried this status code. -/
  | response (status : Nat)
  /-- Any raised error: transport error, timeout, malformed URL, etc. -/
  | failure
deriving DecidableEq

/-- `verify_link(url)` (lines 141-148), parametrized by the probe oracle:
`response.status == 200` on success, `False` on any exception. -/
def verify_link (probe : List Char → ProbeOutcome) (url : List Char) : Bool :=
  match probe url with
  | .response s => s == 200
  | .failure => false

/-! ## References stage (`generate_references`, lines 364-500, and its
caller in `main`, lines 618-625)

The two generative-service calls are modelled by an oracle
`svc : Nat → Except Unit (List Char)` giving, per call index (0 = first
generation, 1 = the retry), either the response text or a raised service
error; the per-link reachability check is an oracle `probe` (the boolean
result of `verify_link`).  Link verification of the links supplied in
`additional_info` (lines 373-386) only selects which links are quoted in
the prompt — it does not influence the control flow modelled here; prompt
construction is abstracted by `svc`. -/

/-- The `verified_links` computed from `additional_info` (lines 373-386):
the extracted links that probe Live.  Feeds only the prompt text. -/
def verifiedProvidedLinks (probe : List Char → Bool) (additional_info : List Char) :
    List (List Char) :=
  (extract_links additional_info).filter probe

/-- Control flow of `generate_references` (lines 444-500): strip the first
response, extract and probe its links; if any link is Dead issue exactly one
retry call and return its stripped text unconditionally.  The second
component counts regeneration calls. -/
def generate_references_run (probe : List Char → Bool)
    (svc : Nat → Except Unit (List Char)) : Except Unit (List Char × Nat) :=
  match svc 0 with
  | .error e => .error e
  | .ok t0 =>
    let references_text := pyStrip t0
    let invalid_links := (extract_links references_text).filter (fun l => !probe l)
    if invalid_links.isEmpty then .ok (references_text, 0)
    else
      match svc 1 with
      | .error e => .error e
      | .ok t1 => .ok (pyStrip t1, 1)

/-- The fixed placeholder references section substituted by `main` when
`generate_references` raises (line 624). -/
def fallbackReferences : List Char :=
  "\n\n## References\n\n*References could not be generated.*".data

/-- The references stage as `main` runs it (lines 618-625): the result of
`generate_references`, or the placeholder on a service error. -/
def references_stage (probe : List Char → Bool)
    (svc : Nat → Except Unit (List Char)) : List Char × Nat :=
  match generate_references_run probe svc with
  | .ok r => r
  | .error _ => (fallbackReferences, 0)

/-! ## Title stage and the post-body pipeline of `main` (lines 591-648) -/

/-- Processing of a successful `generate_title` response (lines 354-357):
strip whitespace, then strip surrounding quote characters. -/
def titleClean (t : List Char) : List Char :=
  pyStripChars ['\x22', '\x27'] (pyStrip t)

/-- The fallback title built in `main` (line 615) from the article type and
the `datetime.now().strftime('%Y%m%d_%H%M%S')` timestamp text. -/
def fallbackTitle (article_type timestamp : List Char) : List Char :=
  article_type ++ '_' :: timestamp

/-- Result tuple of the orchestrator, ready for assembly. -/
structure RunOutput where
  /-- The article title. -/
  title : List Char
  /-- The body content with the hashtag section stripped. -/
  content : List Char
  /-- The references section text. -/
  references : List Char
  /-- The parsed hashtag list. -/
  hashtags : List (List Char)
deriving DecidableEq

/-- `main` from the parse step onward (lines 606-625): parse the body
response, generate the title (falling back on error), then run the
references stage.  `titleSvc` is the title-generation oracle. -/
def main_stages (article_response : List Char)
    (titleSvc : Except Unit (List Char)) (probe : List Char → Bool)
    (refSvc : Nat → Except Unit (List Char))
    (article_type timestamp : List Char) : RunOutput :=
  let parsed := parse_article_response article_response
  let title :=
    match titleSvc with
    | .ok t => titleClean t
    | .error _ => fallbackTitle article_type timestamp
  let refs := (references_stage probe refSvc).1
  ⟨title, parsed.1, refs, parsed.2⟩

/-! ## Word-count range (`build_prompt`, lines 192-193)

The script computes `int(word_count * 0.9)` and `int(word_count * 1.1)` in
IEEE double-precision arithmetic.  The doubles nearest the literals `0.9`
and `1.1` are `8106479329266893 / 2^53` and `4953959590107546 / 2^52`.  For
a word count that is itself exactly representable as a double (in
particular every value below `2^53`, which covers the six word counts the
CLI accepts and the counterexample used below), `int(n * c)` is the
truncation of the correctly rounded (round half to even, 53-bit mantissa)
product `n * mant / 2^s`.  `roundedFloatProductFloor` computes exactly
that, using integer arithmetic; it was cross-checked against CPython on
randomized inputs.  Inputs here are far below `2^128`, the fuel bound of
`bitlen`. -/

/-- Number of binary digits of `n` (for `n < 2^fuel`). -/
def bitlen : Nat → Nat → Nat
  | 0, _ => 0
  | fuel + 1, n => if n = 0 then 0 else bitlen fuel (n / 2) + 1

/-- `int(n * c)` where `c = mant / 2^s` is a positive double and `n` an
exactly representable nonnegative integer: round the exact product to 53
significant bits (half to even), then truncate. -/
def roundedFloatProductFloor (n mant s : Nat) : Nat :=
  let P := n * mant
  if P < 2 ^ 53 then P / 2 ^ s
  else
    let shift := bitlen 128 P - 53
    let D := P / 2 ^ shift
    let r := P % 2 ^ shift
    let half := 2 ^ (shift - 1)
    let M := if half < r || (r = half && D % 2 = 1) then D + 1 else D
    M * 2 ^ shift / 2 ^ s

/-- `int(word_count * 0.9)` (line 193). -/
def acceptRangeLow (n : Nat) : Nat :=
  roundedFloatProductFloor n 8106479329266893 53

/-- `int(word_count * 1.1)` (line 193). -/
def acceptRangeHigh (n : Nat) : Nat :=
  roundedFloatProductFloor n 4953959590107546 52

example : acceptRangeLow 1000 = 900 ∧ acceptRangeHigh 1000 = 1100 := by decide

/-! ## Format Profile Registry and Prompt Composer
(`get_formatting_guidelines`, lines 81-131, and `build_prompt`,
lines 151-229)

The guideline blocks are transcribed byte-for-byte from the source file
(including its literal non-ASCII characters).  `build_prompt` is the exact
f-string concatenation of the script, with each literal fragment a named
chunk. -/

def glLinkedInArticle : List Char := "OUTPUT FORMATTING (STRICT LINKEDIN STYLE):\nThe Hook: Start with a punchy, 1-2 sentence hook. No \"In this post\" or \"Today we discuss.\" Jump straight into the tension or the value proposition.\nStructure:\nUse short paragraphs (1-2 sentences max).\nUse double line breaks for \"white space\" readability.\nUse bullet points for technical comparisons or feature lists.\nTone: Professional, insightful, slightly conversational but highly technical.\nEmojis: Use them to break up text, but do not overdo it. (e.g., \uf8ff\u00fc\u00f6\u00c4 \uf8ff\u00fc\u00f5\u2020\u00d4\u220f\u00e8 \uf8ff\u00fc\u00ed\u00b0).\nEngagement: End with a specific question to the audience to drive comments.\nHashtags: 3-5 relevant tags at the very bottom.".data

def glLinkedInPost : List Char := "OUTPUT FORMATTING (LINKEDIN POST STYLE):\nKeep it concise and punchy (under 3000 characters).\nStart with a strong hook that grabs attention.\nUse short paragraphs and line breaks for readability.\nInclude emojis sparingly for visual appeal.\nEnd with a call-to-action or question.\nHashtags: 3-5 relevant tags at the bottom.".data

def glSubstack : List Char := "OUTPUT FORMATTING (SUBSTACK STYLE):\nProfessional newsletter/article format.\nLonger form content with clear sections.\nUse headers and subheaders to break up content.\nInclude engaging introduction and conclusion.\nMore narrative and storytelling approach.\nNo hashtags needed.".data

def glRedditPost : List Char := "OUTPUT FORMATTING (REDDIT POST STYLE):\nConversational and engaging tone.\nUse clear formatting with headers and bullet points.\nInclude TL;DR (Too Long; Didn\x27t Read) summary at the top.\nEngage with the community style - ask questions, invite discussion.\nUse markdown formatting for readability.\nNo hashtags needed.".data

def glBlogPost : List Char := "OUTPUT FORMATTING (BLOG POST STYLE):\nProfessional blog article format.\nClear introduction, body, and conclusion.\nUse headers and subheaders for structure.\nInclude engaging narrative and examples.\nSEO-friendly structure.\nNo hashtags needed.".data

def glTwitterThread : List Char := "OUTPUT FORMATTING (TWITTER THREAD STYLE):\nBreak content into tweet-sized chunks (280 characters each).\nNumber each tweet (1/n, 2/n, etc.).\nStart with a hook tweet that grabs attention.\nEach tweet should be self-contained but part of a narrative.\nUse emojis and formatting for engagement.\nInclude a final tweet with key takeaways.\nNo hashtags needed.".data

def siChunk1 : List Char := "ROLE & OBJECTIVE:\nYou are a Senior Technical Evangelist and Engineering Editor. Your goal is to ingest multiple raw transcripts (attached by the user), filter out conversational noise, synthesize the technical concepts, and produce a high-impact ".data

def siChunk2 : List Char := ". It should be informative, and provide core concepts to people. ".data

def siChunk3 : List Char := "\n\nYOUR DATA SOURCE:\nThe user will attach multiple files (transcripts/notes). These contain the source of truth.\nPrioritize Synthesis: Do not just summarize one file after another. Look for patterns, conflicting opinions, and complementary technical details across all provided files to create a unified narrative.\nIgnore Fluff: Disregard conversational filler (e.g., \"Can you hear me?\", \"Next slide\", jokes). Focus purely on architectural details, technical trade-offs, and engineering insights.\n\nCONTENT GUIDELINES:\nFairness is Key: When comparing technologies (e.g., Ray vs. Triton), you must be objective. Highlight where Tool A shines and where Tool B is better. Avoid marketing hype; focus on engineering reality.\nDepth: The content must be useful to a technical practitioner. Do not stay on the surface.\n\n".data

def siChunk4 : List Char := "\n\nIMPORTANT OUTPUT REQUIREMENTS:\n1. DO NOT include a title in your response - only provide the article content\n".data

def hashtagInstr : List Char := "2. At the end, include a line with \"HASHTAGS: \" followed by 3-5 relevant hashtags separated by spaces (only if the article type supports hashtags)".data

def siChunk5 : List Char := "\n\nINTERACTION MODEL:\nThe user will provide the files and a specific \"Context Block\" containing the Topic, Angle, and Audience. You will wait for this input, analyze the attached files based on those variables, and generate the ".data

def siChunk6 : List Char := ".".data

def upChunk1 : List Char := "\n\nPlease analyze the following transcripts and generate a ".data

def upChunk2 : List Char := " based on the guidelines above:\n\n".data

def upChunk3 : List Char := "\n\nRemember to:\n1. Include the full ".data

def upChunk4 : List Char := " content (NO TITLE - title will be generated separately)\n2. DO NOT include a references section - that will be generated separately\n".data

def userHashtagInstr : List Char := "3. End with \"HASHTAGS: \" followed by 3-5 relevant hashtags (only if hashtags are appropriate for this article type)".data

def ctxChunkTopic : List Char := "\nCONTEXT BLOCK:\nTopic: ".data

def ctxChunkAngleAud : List Char := "\nAngle: Technical deep-dive with practical insights\nAudience: ".data

def ctxChunkNoTopic : List Char := "\nCONTEXT BLOCK:\nAngle: Technical deep-dive with practical insights\nAudience: ".data

def aiChunk1 : List Char := "\nADDITIONAL INFORMATION:\n".data

def aiLinksHeader : List Char := "\n\nIMPORTANT: The following links are provided for you to review and potentially reference:\n".data

def aiChunk2 : List Char := "\n\nPlease review any provided links and incorporate relevant information from them into the article.\n".data

def sgChunk1 : List Char := "The ".data

def sgChunk2 : List Char := " should be approximately ".data

def sgChunk3 : List Char := " words (target: ".data

def sgChunk4 : List Char := " words, acceptable range: ".data

def sgChunk5 : List Char := "-".data

def sgChunk6 : List Char := " words).".data

def trChunk1 : List Char := "\n\n--- TRANSCRIPT ".data

def trChunk2 : List Char := " ---\n\n".data

def trChunk3 : List Char := "\n".data

def linkBullet : List Char := "- ".data


/-- `get_formatting_guidelines(article_type)` (lines 81-131): fixed table
with `LinkedIn Article` as the permissive default. -/
def get_formatting_guidelines (article_type : List Char) : List Char :=
  if article_type = "LinkedIn Article".data then glLinkedInArticle
  else if article_type = "LinkedIn Post".data then glLinkedInPost
  else if article_type = "Substack".data then glSubstack
  else if article_type = "Reddit Post".data then glRedditPost
  else if article_type = "Blog Post".data then glBlogPost
  else if article_type = "Twitter Thread".data then glTwitterThread
  else glLinkedInArticle

/-- The transcript block of the user prompt (lines 155-157): each
transcript labelled with its 1-based position. -/
def transcriptContent : List (List Char) → Nat → List Char
  | [], _ => []
  | t :: rest, i =>
    trChunk1 ++ natChars i ++ trChunk2 ++ t ++ trChunk3 ++ transcriptContent rest (i + 1)

/-- The context block (lines 160-173): topic line only when a topic was
supplied (Python truthiness of `context_message and context_message.strip()`
is equivalent to the strip being non-empty). -/
def contextBlock (context_message audience : List Char) : List Char :=
  if (pyStrip context_message).isEmpty then
    ctxChunkNoTopic ++ audience ++ trChunk3
  else
    ctxChunkTopic ++ context_message ++ ctxChunkAngleAud ++ audience ++ trChunk3

/-- Python's `"\n".flatten(f"- {link}" for link in links)` (line 182). -/
def linksJoin : List (List Char) → List Char
  | [] => []
  | [l] => linkBullet ++ l
  | l :: l2 :: rest => linkBullet ++ l ++ trChunk3 ++ linksJoin (l2 :: rest)

/-- The additional-information block (lines 176-189), embedding the links
found in the supplementary notes as a bulleted list. -/
def additionalBlock (additional_info : List Char) : List Char :=
  if (pyStrip additional_info).isEmpty then []
  else
    let links := extract_links additional_info
    let links_text :=
      if links.isEmpty then []
      else aiLinksHeader ++ linksJoin links
    aiChunk1 ++ additional_info ++ links_text ++ aiChunk2

/-- The `size_guidance` sentence (lines 192-193). -/
def sizeGuidance (article_type : List Char) (word_count : Nat) : List Char :=
  sgChunk1 ++ pyLower article_type ++ sgChunk2 ++ natChars word_count ++ sgChunk3 ++
  natChars word_count ++ sgChunk4 ++ natChars (acceptRangeLow word_count) ++ sgChunk5 ++
  natChars (acceptRangeHigh word_count) ++ sgChunk6

/-- The system instruction of the body stage (lines 197-216). -/
def systemInstruction (article_type : List Char) (word_count : Nat) : List Char :=
  siChunk1 ++ pyLower article_type ++ siChunk2 ++ sizeGuidance article_type word_count ++
  siChunk3 ++ get_formatting_guidelines article_type ++ siChunk4 ++ hashtagInstr ++
  siChunk5 ++ pyLower article_type ++ siChunk6

/-- The user prompt of the body stage (lines 218-227). -/
def userPrompt (transcripts : List (List Char))
    (context_message additional_info article_type audience : List Char) : List Char :=
  contextBlock context_message audience ++ additionalBlock additional_info ++
  upChunk1 ++ article_type ++ upChunk2 ++ transcriptContent transcripts 1 ++
  upChunk3 ++ pyLower article_type ++ upChunk4 ++ userHashtagInstr

/-- `build_prompt` (lines 151-229).  `enable_research` is accepted and, as
in the source, unused by prompt construction (it only selects tools in
`generate_article`). -/
def build_prompt (transcripts : List (List Char))
    (context_message additional_info article_type : List Char) (word_count : Nat)
    (audience : List Char) (enable_research : Bool) : List Char × List Char :=
  (systemInstruction article_type word_count,
   userPrompt transcripts context_message additional_info article_type audience)

/-! ## Claim theorems: error handling and the references protocol -/

/-- C4: for every url, `verify_link` returns a boolean (it is a total
function — every failure class of the probe is caught by the `except`
clause) and returns `true` exactly when the probe yields the explicit
success status 200; every transport error, timeout, malformed URL and every
non-success status yields `false`. -/
theorem verify_link_spec (probe : List Char → ProbeOutcome) (url : List Char) :
    verify_link probe url = true ↔ probe url = ProbeOutcome.response 200 := by
  cases h : probe url <;> simp [verify_link, h]

/-- C2: with the generative service and the probe as oracles, if some link
of the (stripped) first references text probes Dead, the run issues exactly
one regeneration call and returns its stripped text unconditionally; if
every link probes Live (in particular if there are none), no regeneration
call is issued and the first text is returned. -/
theorem generate_references_protocol (probe : List Char → Bool)
    (gen : Nat → List Char) :
    ((∃ l ∈ extract_links (pyStrip (gen 0)), probe l = false) →
      generate_references_run probe (fun i => Except.ok (gen i)) =
        Except.ok (pyStrip (gen 1), 1))
    ∧ ((∀ l ∈ extract_links (pyStrip (gen 0)), probe l = true) →
      generate_references_run probe (fun i => Except.ok (gen i)) =
        Except.ok (pyStrip (gen 0), 0)) := by
  constructor
  · rintro ⟨l, hl, hdead⟩
    have : ¬ ((extract_links (pyStrip (gen 0))).filter (fun l => !probe l)).isEmpty := by
      simp only [List.isEmpty_iff, List.filter_eq_nil_iff, not_forall]
      exact ⟨l, hl, by simp [hdead]⟩
    simp [generate_references_run, this]
  · intro hall
    have : ((extract_links (pyStrip (gen 0))).filter (fun l => !probe l)).isEmpty := by
      simp only [List.isEmpty_iff, List.filter_eq_nil_iff]
      intro a ha
      simp [hall a ha]
    simp [generate_references_run, this]

/-- Oracle for concrete runs: every link probes Dead. -/
def probeAllDead : List Char → Bool := fun _ => false

/-- Concrete two-response generative oracle: a first references text with
one (Dead) link and a distinct retry text with one (Dead) link. -/
def genTwoTexts : Nat → List Char :=
  fun i => if i = 0 then "[A](http://ab)".data else "[B](http://cd)".data

/-- Witness for `generate_references_protocol` at a concrete run whose
first pass contains a Dead link. -/
theorem generate_references_protocol_witness :
    generate_references_run probeAllDead (fun i => Except.ok (genTwoTexts i)) =
      Except.ok (pyStrip (genTwoTexts 1), 1) :=
  (generate_references_protocol probeAllDead genTwoTexts).1
    ⟨"http://ab)".data, by decide, rfl⟩

/-- Concrete service oracle for the references stage: both calls succeed,
returning `genTwoTexts`. -/
def svcTwoTexts : Nat → Except Unit (List Char) :=
  fun i => Except.ok (genTwoTexts i)

/-- C1, counterexample: a completed run (no service error) in which every
probe reports Dead.  The protocol regenerates once and ships the second
text unconditionally: the final references text contains a link that
probes Dead, yet it is not the failure placeholder — refuting the claimed
invariant. -/
theorem references_invariant_counterexample :
    (references_stage probeAllDead svcTwoTexts).1 = "[B](http://cd)".data
    ∧ "http://cd)".data ∈ extract_links (references_stage probeAllDead svcTwoTexts).1
    ∧ probeAllDead "http://cd)".data = false
    ∧ (references_stage probeAllDead svcTwoTexts).1 ≠ fallbackReferences := by
  decide

/-- C1, amended: after the references stage completes, either the text is
the failure placeholder (service error), or no regeneration occurred and
every link in the final text probes Live, or exactly one regeneration
occurred and the final text is the second response, shipped without
re-verification (and so possibly containing Dead links). -/
theorem references_stage_cases (probe : List Char → Bool)
    (svc : Nat → Except Unit (List Char)) :
    (references_stage probe svc).1 = fallbackReferences
    ∨ ((references_stage probe svc).2 = 0 ∧
        ∀ l ∈ extract_links (references_stage probe svc).1, probe l = true)
    ∨ ((references_stage probe svc).2 = 1 ∧
        ∃ t1, svc 1 = Except.ok t1 ∧ (references_stage probe svc).1 = pyStrip t1) := by
  cases h0 : svc 0 with
  | error e =>
    left
    simp [references_stage, generate_references_run, h0]
  | ok t0 =>
    by_cases hinv : ((extract_links (pyStrip t0)).filter (fun l => !probe l)).isEmpty
    · right; left
      have hstage : references_stage probe svc = (pyStrip t0, 0) := by
        simp [references_stage, generate_references_run, h0, hinv]
      rw [hstage]
      refine ⟨rfl, fun l hl => ?_⟩
      have hnil := List.isEmpty_iff.mp hinv
      rw [List.filter_eq_nil_iff] at hnil
      simpa using hnil l hl
    · cases h1 : svc 1 with
      | error e =>
        left
        simp [references_stage, generate_references_run, h0, hinv, h1]
      | ok t1 =>
        right; right
        have hstage : references_stage probe svc = (pyStrip t1, 1) := by
          simp [references_stage, generate_references_run, h0, hinv, h1]
        rw [hstage]
        exact ⟨rfl, t1, rfl, rfl⟩

/-- C9: when the title-generation call errors, the run continues — the
title is the deterministic fallback built from the format identifier and
the timestamp (a pure function of those two inputs), it is never empty, and
the references stage still runs and delivers its result. -/
theorem title_fallback_on_error (body : List Char) (probe : List Char → Bool)
    (refSvc : Nat → Except Unit (List Char)) (article_type timestamp : List Char) :
    (main_stages body (Except.error ()) probe refSvc article_type timestamp).title
      = fallbackTitle article_type timestamp
    ∧ fallbackTitle article_type timestamp ≠ []
    ∧ (main_stages body (Except.error ()) probe refSvc article_type timestamp).references
      = (references_stage probe refSvc).1 := by
  refine ⟨rfl, ?_, rfl⟩
  cases article_type <;> simp [fallbackTitle]

/-- C10: with the marker immediately followed by a line break, the parser
takes the next non-whitespace line ("Conclusion para") as the hashtag list
and deletes that text from the content: the returned hashtags contain
tokens that never appeared on the marker's own line, and non-hashtag text
is removed from the content. -/
theorem parse_blank_marker_line :
    parse_article_response "intro\nHASHTAGS:\nConclusion para\nmore".data
      = ("intro\n\nmore".data, ["Conclusion".data, "para".data])
    ∧ ("Conclusion para".data <:+: "intro\nHASHTAGS:\nConclusion para\nmore".data)
    ∧ ¬ ("Conclusion".data <:+:
          (parse_article_response "intro\nHASHTAGS:\nConclusion para\nmore".data).1) := by
  refine ⟨by decide, by decide, by decide⟩

/-- C8, counterexample: at the exactly representable target `2^54` the
float computation `int(n * 0.9)` differs from `floor(n * 9 / 10)`, so the
claimed identity does not hold for every positive integer target. -/
theorem word_range_float_counterexample :
    acceptRangeLow 18014398509481984 = 16212958658533786
    ∧ 9 * 18014398509481984 / 10 = 16212958658533785
    ∧ acceptRangeLow 18014398509481984 ≠ 9 * 18014398509481984 / 10 := by
  decide

/-- The six word counts accepted by the command line (lines 548-549). -/
def wordCountChoices : List Nat := [500, 1000, 1500, 2000, 2500, 3000]

/-- C8, amended: for every word count the program accepts, the range
embedded in the body system instruction is exactly
`floor(target*0.9)`-`floor(target*1.1)`; for 1000 it is 900-1100. -/
theorem word_range_choices (n : Nat) (h : n ∈ wordCountChoices) :
    acceptRangeLow n = 9 * n / 10 ∧ acceptRangeHigh n = 11 * n / 10 := by
  simp only [wordCountChoices, List.mem_cons, List.not_mem_nil, or_false] at h
  rcases h with rfl | rfl | rfl | rfl | rfl | rfl <;> decide

/-- Witness for `word_range_choices` at the target 1000. -/
theorem word_range_choices_witness :
    1000 ∈ wordCountChoices
    ∧ (acceptRangeLow 1000 = 9 * 1000 / 10 ∧ acceptRangeHigh 1000 = 11 * 1000 / 10) :=
  ⟨by decide, word_range_choices 1000 (by decide)⟩

/-! ## Claim theorems: hashtag instruction in the body prompts -/

/-- The body system instruction, split around the hashtag-marker
instruction sentence it always contains. -/
theorem systemInstruction_split (article_type : List Char) (word_count : Nat) :
    systemInstruction article_type word_count
      = ((siChunk1 ++ pyLower article_type ++ siChunk2 ++
          sizeGuidance article_type word_count ++ siChunk3 ++
          get_formatting_guidelines article_type ++ siChunk4) ++
         hashtagInstr) ++
        (siChunk5 ++ pyLower article_type ++ siChunk6) := by
  simp [systemInstruction, List.append_assoc]

/-- The body user prompt, split before the hashtag-marker instruction
sentence it always ends with. -/
theorem userPrompt_split (transcripts : List (List Char))
    (context_message additional_info article_type audience : List Char) :
    userPrompt transcripts context_message additional_info article_type audience
      = ((contextBlock context_message audience ++ additionalBlock additional_info ++
          upChunk1 ++ article_type ++ upChunk2 ++ transcriptContent transcripts 1 ++
          upChunk3 ++ pyLower article_type ++ upChunk4) ++
         userHashtagInstr) ++ [] := by
  simp [userPrompt, List.append_assoc]

/-- C5, counterexample: for the Substack format — whose guideline block
says "No hashtags needed.", i.e. hashtags are not applicable — the composed
body system instruction nevertheless carries the instruction to end with a
`HASHTAGS: ` marker line followed by 3-5 hashtags (hedged only by the
parenthetical "(only if the article type supports hashtags)"). -/
theorem substack_prompt_counterexample :
    hashtagInstr <:+:
      (build_prompt [] [] [] "Substack".data 1000
        "Senior engineers and technical practitioners".data true).1
    ∧ "No hashtags needed.".data <:+: get_formatting_guidelines "Substack".data := by
  constructor
  · exact ⟨_, _, (systemInstruction_split "Substack".data 1000).symm⟩
  · decide

/-- C5, amended: the marker-line instruction is present in the system
instruction and the user prompt for every article type and every other
argument — the conditionality is expressed inside the instruction text
itself, while formats without hashtags signal this only through the
"No hashtags needed." line of their guideline blocks. -/
theorem prompt_hashtag_instruction_always (transcripts : List (List Char))
    (context_message additional_info article_type : List Char) (word_count : Nat)
    (audience : List Char) (enable_research : Bool) :
    hashtagInstr <:+:
      (build_prompt transcripts context_message additional_info article_type
        word_count audience enable_research).1
    ∧ userHashtagInstr <:+:
      (build_prompt transcripts context_message additional_info article_type
        word_count audience enable_research).2
    ∧ "No hashtags needed.".data <:+: get_formatting_guidelines "Substack".data
    ∧ "No hashtags needed.".data <:+: get_formatting_guidelines "Reddit Post".data
    ∧ "No hashtags needed.".data <:+: get_formatting_guidelines "Blog Post".data
    ∧ "No hashtags needed.".data <:+: get_formatting_guidelines "Twitter Thread".data := by
  refine ⟨?_, ?_, by decide, by decide, by decide, by decide⟩
  · exact ⟨_, _, (systemInstruction_split article_type word_count).symm⟩
  · exact ⟨_, _, (userPrompt_split transcripts context_message additional_info
      article_type audience).symm⟩

/-! ## `extract_links` on well-separated URL lists (claim C6)

Development for the universal statement: characters that may separate URLs
without being absorbed into a match are the characters excluded from the
URL pattern's first class, plus the trailing-punctuation characters (which
the final class backtracks away). -/

/-- Unfolding of the `re.findall` scanner: a skip of `k` discards the next
`k` characters (already consumed by a match). -/
theorem extractGo_skip : ∀ (k : Nat) (l : List Char), extractGo l k = extractGo (l.drop k) 0 := by
  intro k
  induction k with
  | zero => intro l; rfl
  | succ k ih =>
    intro l
    cases l with
    | nil => rfl
    | cons c cs => simpa [extractGo] using ih cs

/-- No match can start at a character other than `h`. -/
theorem tryMatch_cons_of_ne {c : Char} (x : List Char) (hc : c ≠ 'h') :
    tryMatch (c :: x) = none := by
  have hb : ('h' == c) = false := by
    simp only [beq_eq_false_iff_ne]
    exact fun h => hc h.symm
  simp [tryMatch, httpsScheme, httpScheme, List.isPrefixOf, hb]

/-- Characters a separator may consist of: whitespace, the characters the
first URL character class excludes, and the trailing punctuation
characters. -/
def sepChar (c : Char) : Bool :=
  trailPunct c || !urlChar c

/-- Separator characters are never `h`. -/
theorem sepChar_ne_h {c : Char} (h : sepChar c = true) : c ≠ 'h' := by
  rintro rfl
  simp [sepChar, trailPunct, urlChar, pySpace] at h

/-- Scanning a separator-only prefix finds no match. -/
theorem extract_links_sep_skip (s t : List Char)
    (hs : ∀ c ∈ s, sepChar c = true) :
    extract_links (s ++ t) = extract_links t := by
  induction s with
  | nil => rfl
  | cons c s' ih =>
    have hc : c ≠ 'h' := sepChar_ne_h (hs c (by simp))
    have : extract_links (c :: (s' ++ t)) = extract_links (s' ++ t) := by
      simp [extract_links, extractGo, tryMatch_cons_of_ne _ hc]
    simpa [this] using ih (fun a ha => hs a (by simp [ha]))

/-- A well-formed URL body: at least two characters, all from the first URL
character class, not ending in trailing punctuation. -/
def urlBodyOk (body : List Char) : Bool :=
  2 ≤ body.length && body.all urlChar && !trailPunct (body.getLastD ' ')

/-- A well-formed URL: `http://` or `https://` followed by a well-formed
body. -/
def wellFormedUrl (u : List Char) : Bool :=
  if httpsScheme.isPrefixOf u then urlBodyOk (u.drop 8)
  else if httpScheme.isPrefixOf u then urlBodyOk (u.drop 7)
  else false

/-- Every list is a prefix of itself extended. -/
theorem isPrefixOf_append_self (p l : List Char) : p.isPrefixOf (p ++ l) = true := by
  simp [List.isPrefixOf_iff_prefix]

/-- `https://` is not a prefix of `http://` followed by anything. -/
theorem https_not_prefixOf_http (x : List Char) :
    httpsScheme.isPrefixOf (httpScheme ++ x) = false := by
  have h : (httpScheme ++ x) = 'h' :: 't' :: 't' :: 'p' :: ':' :: '/' :: '/' :: x := rfl
  rw [h]
  simp [httpsScheme, List.isPrefixOf, show ('s' == (':' : Char)) = false from rfl]

/-- Core of the match at a well-formed URL: the maximal run is the body
plus the punctuation-only `urlChar` prefix of the remainder, and trimming
trailing punctuation recovers exactly the body. -/
theorem tryMatchBody_exact {body z : List Char} (scheme : List Char)
    (hbl : 2 ≤ body.length) (hba : ∀ a ∈ body, urlChar a = true)
    (hbp : trailPunct (body.getLastD ' ') = false)
    (hz : ∀ a ∈ z.takeWhile urlChar, trailPunct a = true) :
    tryMatchBody scheme (body ++ z) = some (scheme ++ body) := by
  have hrun : (body ++ z).takeWhile urlChar = body ++ z.takeWhile urlChar :=
    List.takeWhile_append_of_pos hba
  have hrev : (body ++ z.takeWhile urlChar).reverse
      = (z.takeWhile urlChar).reverse ++ body.reverse := by
    simp
  have hdropz : ((z.takeWhile urlChar).reverse ++ body.reverse).dropWhile trailPunct
      = body.reverse.dropWhile trailPunct :=
    List.dropWhile_append_of_pos (by intro a ha; exact hz a (List.mem_reverse.mp ha))
  have hbody_ne : body ≠ [] := by
    intro h; rw [h] at hbl; simp at hbl
  have hdropb : body.reverse.dropWhile trailPunct = body.reverse := by
    cases hrevb : body.reverse with
    | nil => rfl
    | cons d ds =>
      have hd : body.getLast? = some d := by
        rw [← List.head?_reverse, hrevb]; rfl
      have : trailPunct d = false := by
        have := hbp
        rw [List.getLastD_eq_getLast?, hd] at this
        exact this
      simp [List.dropWhile_cons, this]
  rw [tryMatchBody]
  simp only [hrun, hrev, hdropz, hdropb, List.reverse_reverse]
  simp [hbl]

/-- Decomposition of a well-formed URL into scheme and body facts. -/
theorem wellFormedUrl_parts {u : List Char} (hu : wellFormedUrl u = true) :
    ∃ scheme body, (scheme = httpsScheme ∨ scheme = httpScheme)
      ∧ u = scheme ++ body ∧ 2 ≤ body.length
      ∧ (∀ a ∈ body, urlChar a = true)
      ∧ trailPunct (body.getLastD ' ') = false := by
  unfold wellFormedUrl at hu
  by_cases h8 : httpsScheme.isPrefixOf u
  · obtain ⟨t, ht⟩ := List.isPrefixOf_iff_prefix.mp h8
    refine ⟨httpsScheme, t, Or.inl rfl, ht.symm, ?_⟩
    rw [if_pos h8] at hu
    have hdrop : u.drop 8 = t := by
      rw [← ht]; exact List.drop_left' rfl
    rw [hdrop] at hu
    simpa [urlBodyOk, and_assoc] using hu
  · rw [if_neg h8] at hu
    by_cases h7 : httpScheme.isPrefixOf u
    · obtain ⟨t, ht⟩ := List.isPrefixOf_iff_prefix.mp h7
      refine ⟨httpScheme, t, Or.inr rfl, ht.symm, ?_⟩
      rw [if_pos h7] at hu
      have hdrop : u.drop 7 = t := by
        rw [← ht]; exact List.drop_left' rfl
      rw [hdrop] at hu
      simpa [urlBodyOk, and_assoc] using hu
    · rw [if_neg h7] at hu
      cases hu

/-- At a well-formed URL followed by a remainder whose leading `urlChar`
run is all trailing punctuation, the pattern matches exactly the URL. -/
theorem tryMatch_wellFormed {u z : List Char} (hu : wellFormedUrl u = true)
    (hz : ∀ a ∈ z.takeWhile urlChar, trailPunct a = true) :
    tryMatch (u ++ z) = some u := by
  obtain ⟨scheme, body, hs, rfl, hbl, hba, hbp⟩ := wellFormedUrl_parts hu
  rcases hs with rfl | rfl
  · rw [List.append_assoc, tryMatch, if_pos (by rw [isPrefixOf_append_self]),
      List.drop_left' (by rfl)]
    exact tryMatchBody_exact _ hbl hba hbp hz
  · rw [List.append_assoc, tryMatch, if_neg (by rw [https_not_prefixOf_http]; simp),
      if_pos (by rw [isPrefixOf_append_self]), List.drop_left' (by rfl)]
    exact tryMatchBody_exact _ hbl hba hbp hz

/-- Scanning from a well-formed URL: the URL itself is returned and the
scan resumes right after it. -/
theorem extract_links_url_step {u z : List Char} (hu : wellFormedUrl u = true)
    (hz : ∀ a ∈ z.takeWhile urlChar, trailPunct a = true) :
    extract_links (u ++ z) = u :: extract_links z := by
  have hm : tryMatch (u ++ z) = some u := tryMatch_wellFormed hu hz
  obtain ⟨c, u', rfl⟩ : ∃ c u', u = c :: u' := by
    cases u with
    | nil => simp [wellFormedUrl, httpScheme, httpsScheme, List.isPrefixOf] at hu
    | cons c u' => exact ⟨c, u', rfl⟩
  show extractGo ((c :: u') ++ z) 0 = _
  rw [List.cons_append] at hm ⊢
  simp only [extractGo, hm, List.length_cons, Nat.succ_sub_one]
  rw [extractGo_skip, List.drop_left]
  rfl

/-- The leading `urlChar` run of a separator-only string consists of
trailing punctuation. -/
theorem sep_takeWhile_punct {s : List Char} (hs : ∀ c ∈ s, sepChar c = true) :
    ∀ a ∈ s.takeWhile urlChar, trailPunct a = true := by
  intro a ha
  have h1 : urlChar a = true := List.mem_takeWhile_imp ha
  have h2 : a ∈ s := List.takeWhile_subset _ ha
  have h3 := hs a h2
  rw [sepChar, h1] at h3
  simpa using h3

/-- The `takeWhile` of an appended list stops inside the first part when
some element of it fails the predicate. -/
theorem takeWhile_append_stop {p : Char → Bool} {s : List Char} (t : List Char)
    (hs : ∃ c ∈ s, p c = false) :
    (s ++ t).takeWhile p = s.takeWhile p := by
  induction s with
  | nil =>
    rcases hs with ⟨c, hc, _⟩
    cases hc
  | cons c s' ih =>
    by_cases hp : p c
    · rcases hs with ⟨d, hd, hdp⟩
      rcases List.mem_cons.mp hd with rfl | hd'
      · rw [hp] at hdp; cases hdp
      · simp only [List.cons_append, List.takeWhile_cons, hp, if_true]
        rw [ih ⟨d, hd', hdp⟩]
    · have hp' : p c = false := by simpa using hp
      simp [List.takeWhile_cons, hp']

/-- Shape condition on a URL/separator interleaving: each URL is
well-formed, each separator consists of separator characters, and every
separator that precedes a further URL contains at least one character
outside the URL character class (so the previous match cannot run into the
next URL). -/
def goodPairs : List (List Char × List Char) → Bool
  | [] => true
  | (u, s) :: rest =>
    wellFormedUrl u && s.all sepChar && (rest.isEmpty || s.any fun c => !urlChar c) &&
    goodPairs rest

/-- C6, amended: on any text made of well-formed URLs interleaved with
separator strings of whitespace, excluded characters and trailing
punctuation — where separators between two URLs contain at least one
non-URL character — `extract_links` returns exactly the URLs, in
left-to-right order, each free of the adjacent separator punctuation, with
duplicates retained.  (The unrestricted claim fails: see the
counterexample, where adjacent punctuation such as `)` is kept.) -/
theorem extract_links_exact (sep0 : List Char) (pairs : List (List Char × List Char))
    (h0 : sep0.all sepChar = true) (hp : goodPairs pairs = true) :
    extract_links (sep0 ++ (pairs.map (fun q => q.1 ++ q.2)).flatten) = pairs.map Prod.fst := by
  rw [extract_links_sep_skip _ _ (List.all_eq_true.mp h0)]
  induction pairs with
  | nil => rfl
  | cons q rest ih =>
    obtain ⟨u, s⟩ := q
    have hparts : wellFormedUrl u = true ∧ s.all sepChar = true ∧
        (rest.isEmpty || s.any fun c => !urlChar c) = true ∧ goodPairs rest = true := by
      simpa [goodPairs, Bool.and_eq_true, and_assoc] using hp
    obtain ⟨hu, hsep, hmid, hrest⟩ := hparts
    simp only [List.map_cons, List.flatten_cons]
    rw [List.append_assoc]
    have hz : ∀ a ∈ ((s ++ ((rest.map fun q => q.1 ++ q.2)).flatten).takeWhile urlChar),
        trailPunct a = true := by
      cases rest with
      | nil =>
        simp only [List.map_nil, List.flatten_nil, List.append_nil]
        exact sep_takeWhile_punct (List.all_eq_true.mp hsep)
      | cons r rs =>
        have hany : ∃ c ∈ s, urlChar c = false := by
          have : (s.any fun c => !urlChar c) = true := by
            simpa using hmid
          obtain ⟨c, hc, hcp⟩ := List.any_eq_true.mp this
          exact ⟨c, hc, by simpa using hcp⟩
        rw [takeWhile_append_stop _ hany]
        exact sep_takeWhile_punct (List.all_eq_true.mp hsep)
    rw [extract_links_url_step hu hz]
    rw [extract_links_sep_skip _ _ (List.all_eq_true.mp hsep)]
    rw [ih hrest]

/-- Witness for `extract_links_exact`: two occurrences of the same URL
(duplicates retained) separated by ". " and preceded by a space. -/
theorem extract_links_exact_witness :
    " ".data.all sepChar = true
    ∧ goodPairs [("http://ab".data, ". ".data), ("http://ab".data, [])] = true
    ∧ extract_links (" ".data ++
        (([("http://ab".data, ". ".data), ("http://ab".data, ([] : List Char))].map
          (fun q => q.1 ++ q.2)).flatten))
      = ["http://ab".data, "http://ab".data] :=
  ⟨by decide, by decide,
    extract_links_exact " ".data
      [("http://ab".data, ". ".data), ("http://ab".data, [])] (by decide) (by decide)⟩

/-- C6, counterexample: `(http://ab)` contains one well-formed URL
(`http://ab`) surrounded by punctuation, yet the single extracted entry is
`http://ab)` — it retains the adjacent trailing closing parenthesis, so the
entries are not free of adjacent trailing punctuation as claimed. -/
theorem extract_links_counterexample :
    extract_links "(http://ab)".data = ["http://ab)".data]
    ∧ extract_links "(http://ab)".data ≠ ["http://ab".data]
    ∧ ("http://ab)".data).getLastD ' ' = ')' := by
  decide

/-! ## Structure of the `re.sub` scanner (claims C3 and C7)

"Live marker" below means an occurrence of `HASHTAGS:` with at least one
character after it — exactly the occurrences at which the search and
substitution patterns can match. -/

/-- A text with no live marker occurrence: every decomposition around the
marker has an empty tail. -/
def NoLiveMarker (l : List Char) : Prop :=
  ∀ a b, l = a ++ hashtagsMarker ++ b → b = []

/-- Unfolding of the `re.sub` scanner's skip counter. -/
theorem subGo_skip : ∀ (k : Nat) (l : List Char), subGo l k = subGo (l.drop k) 0 := by
  intro k
  induction k with
  | zero => intro l; rfl
  | succ k ih =>
    intro l
    cases l with
    | nil => rfl
    | cons c cs => simpa [subGo] using ih cs

/-- A match at the head consumes the marker and `markerMatchLen` further
characters. -/
theorem subHashtags_cons_match {c : Char} {cs : List Char}
    (h : liveMarkerAt (c :: cs) = true) :
    subHashtags (c :: cs)
      = subHashtags (((c :: cs).drop 9).drop (markerMatchLen ((c :: cs).drop 9))) := by
  show subGo (c :: cs) 0 = _
  rw [show subGo (c :: cs) 0 = subGo cs (8 + markerMatchLen ((c :: cs).drop 9)) by
    simp [subGo, h]]
  rw [subGo_skip]
  have : ((c :: cs).drop 9).drop (markerMatchLen ((c :: cs).drop 9))
      = cs.drop (8 + markerMatchLen ((c :: cs).drop 9)) := by
    rw [List.drop_drop]
    have : (9 : Nat) + markerMatchLen ((c :: cs).drop 9)
        = (8 + markerMatchLen ((c :: cs).drop 9)) + 1 := by omega
    rw [this, List.drop_succ_cons]
  rw [this]
  rfl

/-- No match at the head: the character is kept and scanning continues. -/
theorem subHashtags_cons_nomatch {c : Char} {cs : List Char}
    (h : liveMarkerAt (c :: cs) = false) :
    subHashtags (c :: cs) = c :: subHashtags cs := by
  show subGo (c :: cs) 0 = _
  simp [subGo, h]
  rfl

/-- A newline can never start a marker occurrence. -/
theorem liveMarkerAt_newline (x : List Char) : liveMarkerAt ('\n' :: x) = false := by
  simp [liveMarkerAt, hashtagsMarker, List.isPrefixOf,
    show ('H' == '\n') = false from rfl]

/-- When the search fails, substitution leaves the text unchanged. -/
theorem subHashtags_of_findMarkerTail_none :
    ∀ {l : List Char}, findMarkerTail l = none → subHashtags l = l := by
  intro l
  induction l with
  | nil => intro _; rfl
  | cons c cs ih =>
    intro h
    rw [findMarkerTail] at h
    by_cases hlive : liveMarkerAt (c :: cs)
    · rw [if_pos hlive] at h; cases h
    · rw [if_neg hlive] at h
      rw [subHashtags_cons_nomatch (by simpa using hlive)]
      rw [ih h]

/-- Dropping the length of a `takeWhile` is `dropWhile`. -/
theorem drop_length_takeWhile (p : Char → Bool) (l : List Char) :
    l.drop (l.takeWhile p).length = l.dropWhile p := by
  induction l with
  | nil => rfl
  | cons c cs ih =>
    by_cases h : p c
    · simp [List.takeWhile_cons, List.dropWhile_cons, h, ih]
    · simp [List.takeWhile_cons, List.dropWhile_cons, h]

/-- Either `dropWhile` empties the list or its head fails the predicate. -/
theorem dropWhile_shape (p : Char → Bool) (l : List Char) :
    l.dropWhile p = [] ∨ ∃ c cs, l.dropWhile p = c :: cs ∧ p c = false := by
  induction l with
  | nil => left; rfl
  | cons c cs ih =>
    by_cases h : p c
    · simpa [List.dropWhile_cons, h] using ih
    · right
      exact ⟨c, cs, by simp [List.dropWhile_cons, h], by simpa using h⟩

/-- What remains after a match's consumed span: nothing, or a text starting
with a newline (the `$` of the lazy group stops right before a newline). -/
theorem markerMatchLen_drop (r : List Char) :
    r.drop (markerMatchLen r) = [] ∨ ∃ r2, r.drop (markerMatchLen r) = '\n' :: r2 := by
  unfold markerMatchLen
  by_cases h : (r.dropWhile pySpace).isEmpty
  · left
    rw [if_pos h]
    exact List.drop_eq_nil_of_le (Nat.le_refl _)
  · rw [if_neg h]
    have hsplit : r.drop ((r.takeWhile pySpace).length +
        ((r.dropWhile pySpace).takeWhile (fun c => c != '\n')).length)
        = (r.dropWhile pySpace).drop
            (((r.dropWhile pySpace).takeWhile (fun c => c != '\n')).length) := by
      rw [← List.drop_drop, drop_length_takeWhile]
    rw [hsplit]
    rw [drop_length_takeWhile]
    rcases dropWhile_shape (fun c => c != '\n') (r.dropWhile pySpace) with h1 | ⟨c, cs, h1, h2⟩
    · left; exact h1
    · right
      refine ⟨cs, ?_⟩
      have : c = '\n' := by simpa using h2
      rw [h1, this]

/-- Fuel-indexed form of the length bound for `subHashtags`. -/
theorem subHashtags_length_fuel :
    ∀ (n : Nat) (l : List Char), l.length ≤ n → (subHashtags l).length ≤ l.length := by
  intro n
  induction n with
  | zero =>
    intro l hl
    have : l = [] := List.length_eq_zero.mp (Nat.le_zero.mp hl)
    subst this
    exact Nat.le_refl _
  | succ n ih =>
    intro l hl
    cases l with
    | nil => exact Nat.le_refl _
    | cons c cs =>
      by_cases hlive : liveMarkerAt (c :: cs)
      · rw [subHashtags_cons_match hlive]
        have hlen : (((c :: cs).drop 9).drop
            (markerMatchLen ((c :: cs).drop 9))).length ≤ cs.length := by
          simp only [List.length_drop, List.length_cons]
          omega
        have hn : (((c :: cs).drop 9).drop
            (markerMatchLen ((c :: cs).drop 9))).length ≤ n := by
          have : cs.length ≤ n := by
            simpa using Nat.le_of_succ_le_succ (by simpa using hl)
          omega
        calc (subHashtags (((c :: cs).drop 9).drop (markerMatchLen ((c :: cs).drop 9)))).length
            ≤ (((c :: cs).drop 9).drop (markerMatchLen ((c :: cs).drop 9))).length :=
              ih _ hn
          _ ≤ cs.length := hlen
          _ ≤ (c :: cs).length := by simp
      · rw [subHashtags_cons_nomatch (by simpa using hlive)]
        have : cs.length ≤ n := by
          simpa using Nat.le_of_succ_le_succ (by simpa using hl)
        simpa using ih cs this

/-- `subHashtags` never lengthens the text. -/
theorem subHashtags_length (l : List Char) : (subHashtags l).length ≤ l.length :=
  subHashtags_length_fuel l.length l (Nat.le_refl _)

/-- If a non-empty proper suffix of the marker is a prefix of the
substituted text, it was already a prefix of the original text: the
substitution scanner only ever exposes a newline (or nothing) at the seam
of a removed span, and no marker suffix begins with a newline. -/
theorem marker_suffix_transfer :
    ∀ (n : Nat) (l : List Char) (j : Nat), l.length ≤ n → 1 ≤ j →
      (hashtagsMarker.drop j) <+: subHashtags l → (hashtagsMarker.drop j) <+: l := by
  intro n
  induction n with
  | zero =>
    intro l j hl _ hpre
    have : l = [] := List.length_eq_zero.mp (Nat.le_zero.mp hl)
    subst this
    simpa [subHashtags, subGo] using hpre
  | succ n ih =>
    intro l j hl hj hpre
    by_cases hj9 : 9 ≤ j
    · have hnil : hashtagsMarker.drop j = [] :=
        List.drop_eq_nil_of_le (by simp [hashtagsMarker]; omega)
      simp [hnil]
    · have hmdj_ne : hashtagsMarker.drop j ≠ [] := by
        intro hnil
        have := congrArg List.length hnil
        simp [hashtagsMarker] at this
        omega
      cases l with
      | nil => simpa [subHashtags, subGo] using hpre
      | cons c cs =>
        have hcs : cs.length ≤ n := by
          simpa using Nat.le_of_succ_le_succ (by simpa using hl)
        by_cases hlive : liveMarkerAt (c :: cs)
        · exfalso
          rw [subHashtags_cons_match hlive] at hpre
          rcases markerMatchLen_drop ((c :: cs).drop 9) with hrem | ⟨r2, hrem⟩
          · rw [hrem] at hpre
            have h9 : hashtagsMarker.length ≤ j := by
              simpa [subHashtags, subGo] using hpre
            simp [hashtagsMarker] at h9
            omega
          · rw [hrem, subHashtags_cons_nomatch (liveMarkerAt_newline r2)] at hpre
            obtain ⟨d, ds, hds⟩ := List.exists_cons_of_ne_nil hmdj_ne
            rw [hds, List.cons_prefix_cons] at hpre
            have hdmem : d ∈ hashtagsMarker := by
              have : d ∈ hashtagsMarker.drop j := by rw [hds]; simp
              exact List.mem_of_mem_drop this
            rw [hpre.1] at hdmem
            exact absurd hdmem (by decide)
        · rw [subHashtags_cons_nomatch (by simpa using hlive)] at hpre
          have hjlt : j < 9 := by omega
          have hdropj : hashtagsMarker.drop j
              = hashtagsMarker[j] :: hashtagsMarker.drop (j + 1) :=
            List.drop_eq_getElem_cons (by simp [hashtagsMarker]; omega)
          rw [hdropj] at hpre ⊢
          rw [List.cons_prefix_cons] at hpre ⊢
          exact ⟨hpre.1, ih cs (j + 1) hcs (by omega) hpre.2⟩

/-- Core invariant of the substitution: the substituted text contains no
live marker occurrence. -/
theorem subHashtags_noLiveMarker_fuel :
    ∀ (n : Nat) (l : List Char), l.length ≤ n → NoLiveMarker (subHashtags l) := by
  intro n
  induction n with
  | zero =>
    intro l hl a b heq
    have : l = [] := List.length_eq_zero.mp (Nat.le_zero.mp hl)
    subst this
    have hlen := congrArg List.length heq
    simp [subHashtags, subGo, hashtagsMarker] at hlen
    omega
  | succ n ih =>
    intro l hl a b heq
    cases l with
    | nil =>
      have hlen := congrArg List.length heq
      simp [subHashtags, subGo, hashtagsMarker] at hlen
      omega
    | cons c cs =>
      have hcs : cs.length ≤ n := by
        simpa using Nat.le_of_succ_le_succ (by simpa using hl)
      by_cases hlive : liveMarkerAt (c :: cs)
      · rw [subHashtags_cons_match hlive] at heq
        have hn : (((c :: cs).drop 9).drop
            (markerMatchLen ((c :: cs).drop 9))).length ≤ n := by
          simp only [List.length_drop, List.length_cons]
          omega
        exact ih _ hn a b heq
      · rw [subHashtags_cons_nomatch (by simpa using hlive)] at heq
        cases a with
        | cons a0 a' =>
          rw [List.cons_append, List.cons_append] at heq
          injection heq with _ h2
          exact ih cs hcs a' b h2
        | nil =>
          rw [List.nil_append] at heq
          have hm : hashtagsMarker = 'H' :: hashtagsMarker.drop 1 := rfl
          rw [hm, List.cons_append] at heq
          injection heq with h1 h2
          by_cases hb : b = []
          · exact hb
          exfalso
          have hpre : (hashtagsMarker.drop 1) <+: subHashtags cs := ⟨b, h2.symm⟩
          have htrans : (hashtagsMarker.drop 1) <+: cs :=
            marker_suffix_transfer n cs 1 hcs (by omega) hpre
          have hmp : hashtagsMarker <+: (c :: cs) := by
            rw [hm, List.cons_prefix_cons]
            exact ⟨h1.symm, htrans⟩
          have hlen9 : 9 ≤ cs.length := by
            have hsl : (subHashtags cs).length = 8 + b.length := by
              rw [h2]
              simp [hashtagsMarker]
              omega
            have hbl : 1 ≤ b.length := by
              cases b with
              | nil => exact absurd rfl hb
              | cons _ _ => simp
            have := subHashtags_length cs
            omega
          have hpre9 : hashtagsMarker.isPrefixOf (c :: cs) = true :=
            List.isPrefixOf_iff_prefix.mpr hmp
          have hdrop9 : ¬ ((c :: cs).drop 9).isEmpty := by
            rw [List.isEmpty_iff, List.drop_eq_nil_iff]
            simp only [List.length_cons]
            omega
          have hfalse : ((c :: cs).drop 9).isEmpty = false :=
            Bool.eq_false_iff.mpr hdrop9
          apply hlive
          unfold liveMarkerAt
          rw [hpre9, hfalse]
          rfl

/-- The substituted text contains no live marker occurrence. -/
theorem subHashtags_noLiveMarker (l : List Char) : NoLiveMarker (subHashtags l) :=
  subHashtags_noLiveMarker_fuel l.length l (Nat.le_refl _)

/-- The search fails exactly on texts with no live marker occurrence. -/
theorem findMarkerTail_eq_none_iff {l : List Char} :
    findMarkerTail l = none ↔ NoLiveMarker l := by
  induction l with
  | nil =>
    constructor
    · intro _ a b heq
      have := congrArg List.length heq
      simp [hashtagsMarker] at this
      omega
    · intro _; rfl
  | cons c cs ih =>
    by_cases hlive : liveMarkerAt (c :: cs)
    · constructor
      · intro h
        rw [findMarkerTail, if_pos hlive] at h
        cases h
      · intro hno
        exfalso
        have h2 := hlive
        unfold liveMarkerAt at h2
        rw [Bool.and_eq_true] at h2
        obtain ⟨hp, hne⟩ := h2
        obtain ⟨t, ht⟩ := List.isPrefixOf_iff_prefix.mp hp
        have htl : (c :: cs).drop 9 = t := by
          rw [← ht]
          exact List.drop_left' rfl
        have hb : t = [] := hno [] t (by rw [List.nil_append]; exact ht.symm)
        rw [htl, hb] at hne
        simp at hne
    · rw [findMarkerTail, if_neg hlive, ih]
      constructor
      · intro hno a b heq
        cases a with
        | nil =>
          rw [List.nil_append] at heq
          have hp : hashtagsMarker.isPrefixOf (c :: cs) = true :=
            List.isPrefixOf_iff_prefix.mpr ⟨b, heq.symm⟩
          have hniso : ((c :: cs).drop 9).isEmpty = true := by
            by_contra hx
            apply hlive
            unfold liveMarkerAt
            rw [hp, Bool.eq_false_iff.mpr hx]
            rfl
          have hbd : b = (c :: cs).drop 9 := by
            rw [heq, show (9 : Nat) = hashtagsMarker.length from rfl, List.drop_left]
          rw [hbd]
          exact List.isEmpty_iff.mp hniso
        | cons a0 a' =>
          rw [List.cons_append, List.cons_append] at heq
          injection heq with _ h2
          exact hno a' b h2
      · intro hno a b heq
        exact hno (c :: a) b (by rw [heq]; simp)

/-- `pyStrip` yields an infix of its argument. -/
theorem pyStrip_within (l : List Char) : pyStrip l <:+: l := by
  unfold pyStrip
  have h2 : ((l.dropWhile pySpace).reverse.dropWhile pySpace)
      <:+ (l.dropWhile pySpace).reverse := List.dropWhile_suffix _
  have h3 : ((l.dropWhile pySpace).reverse.dropWhile pySpace).reverse
      <+: (l.dropWhile pySpace) := by
    have h4 := List.reverse_prefix.mpr h2
    rwa [List.reverse_reverse] at h4
  exact h3.isInfix.trans (List.dropWhile_suffix pySpace).isInfix

/-- `NoLiveMarker` passes to infixes. -/
theorem NoLiveMarker.of_within {x y : List Char} (h : NoLiveMarker x)
    (hxy : y <:+: x) : NoLiveMarker y := by
  obtain ⟨u, v, huv⟩ := hxy
  intro a b heq
  have hx : x = (u ++ a) ++ hashtagsMarker ++ (b ++ v) := by
    rw [← huv, heq]
    simp [List.append_assoc]
  exact (List.append_eq_nil.mp (h (u ++ a) (b ++ v) hx)).1

/-- C7: parsing is idempotent on the content field — the content returned
by the parser contains no live marker, so a second parse finds no hashtags. -/
theorem parse_content_idempotent (body : List Char) :
    (parse_article_response (parse_article_response body).1).2 = [] := by
  cases hfind : findMarkerTail body with
  | none =>
    have h1 : parse_article_response body = (body, []) := by
      simp only [parse_article_response, hfind]
    rw [h1]
    simp only [parse_article_response, hfind]
  | some r =>
    have h1 : (parse_article_response body).1 = pyStrip (subHashtags body) := by
      simp only [parse_article_response, hfind]
    rw [h1]
    have hno : NoLiveMarker (pyStrip (subHashtags body)) :=
      (subHashtags_noLiveMarker body).of_within (pyStrip_within _)
    have hfind2 : findMarkerTail (pyStrip (subHashtags body)) = none :=
      findMarkerTail_eq_none_iff.mpr hno
    simp only [parse_article_response, hfind2]

/-- C3, counterexample: the parser acts on the *first* live marker (the
regex search is unanchored and leftmost), takes only that match's first
line as hashtags, and the substitution removes each marker segment only
through its line end — leaving later text in the content.  Both
behaviours contradict the claim ("last occurrence", "all text following
the marker to end-of-text", "everything after it removed"). -/
theorem parse_spec_counterexample :
    parse_article_response "HASHTAGS: a\nmid\nHASHTAGS: b".data
      = ("mid".data, ["a".data])
    ∧ parse_article_response "HASHTAGS: a\nmid\nHASHTAGS: b".data
      ≠ ("HASHTAGS: a\nmid".data, ["b".data])
    ∧ parse_article_response "body\nHASHTAGS: #a\ntrailing".data
      = ("body\n\ntrailing".data, ["#a".data])
    ∧ parse_article_response "body\nHASHTAGS: #a\ntrailing".data
      ≠ ("body".data, ["#a".data, "trailing".data]) := by
  refine ⟨by decide, by decide, by decide, by decide⟩

/-- Scanner characterization of a successful search: the text splits at
the first live marker, and the substitution keeps the prefix verbatim and
continues after the match's consumed span. -/
theorem findMarkerTail_scan :
    ∀ {l r : List Char}, findMarkerTail l = some r →
      ∃ a, l = a ++ hashtagsMarker ++ r
        ∧ subHashtags l = a ++ subHashtags (r.drop (markerMatchLen r)) := by
  intro l
  induction l with
  | nil => intro r h; cases h
  | cons c cs ih =>
    intro r h
    rw [findMarkerTail] at h
    by_cases hlive : liveMarkerAt (c :: cs)
    · rw [if_pos hlive] at h
      injection h with hr
      refine ⟨[], ?_, ?_⟩
      · rw [List.nil_append]
        have hp : hashtagsMarker.isPrefixOf (c :: cs) = true := by
          have h2 := hlive
          unfold liveMarkerAt at h2
          rw [Bool.and_eq_true] at h2
          exact h2.1
        obtain ⟨t, ht⟩ := List.isPrefixOf_iff_prefix.mp hp
        have hdt : (c :: cs).drop 9 = t := by
          rw [← ht]
          exact List.drop_left' rfl
        rw [← hr, hdt]
        exact ht.symm
      · rw [List.nil_append, ← hr]
        exact subHashtags_cons_match hlive
    · rw [if_neg hlive] at h
      obtain ⟨a, ha1, ha2⟩ := ih h
      refine ⟨c :: a, ?_, ?_⟩
      · rw [List.cons_append, List.cons_append, ← ha1]
      · rw [subHashtags_cons_nomatch (by simpa using hlive), ha2]
        simp [List.cons_append]

/-! ## `str.split()` under boundary whitespace (for claim C3) -/

/-- `splitWsAux` on an all-whitespace list flushes the accumulator. -/
theorem splitWsAux_all_space :
    ∀ (s : List Char), (∀ c ∈ s, pySpace c = true) →
      ∀ acc, splitWsAux s acc = if acc.isEmpty then [] else [acc.reverse] := by
  intro s
  induction s with
  | nil => intro _ acc; rfl
  | cons c s' ih =>
    intro hs acc
    have hc : pySpace c = true := hs c (by simp)
    have hs' : ∀ d ∈ s', pySpace d = true := fun d hd => hs d (by simp [hd])
    rw [splitWsAux, if_pos hc]
    by_cases hacc : acc.isEmpty
    · rw [if_pos hacc, if_pos hacc, ih hs' []]
      rfl
    · rw [if_neg hacc, if_neg hacc, ih hs' []]
      rfl

/-- Appending trailing whitespace does not change `splitWsAux`. -/
theorem splitWsAux_append_space :
    ∀ (l : List Char) {s : List Char}, (∀ c ∈ s, pySpace c = true) →
      ∀ acc, splitWsAux (l ++ s) acc = splitWsAux l acc := by
  intro l
  induction l with
  | nil =>
    intro s hs acc
    rw [List.nil_append, splitWsAux_all_space s hs acc]
    rfl
  | cons c l' ih =>
    intro s hs acc
    rw [List.cons_append, splitWsAux, splitWsAux]
    by_cases hc : pySpace c
    · rw [if_pos hc, if_pos hc]
      by_cases hacc : acc.isEmpty
      · rw [if_pos hacc, if_pos hacc, ih hs []]
      · rw [if_neg hacc, if_neg hacc, ih hs []]
    · rw [if_neg hc, if_neg hc, ih hs _]

/-- `pySplit` ignores trailing whitespace. -/
theorem pySplit_append_space {l s : List Char} (hs : ∀ c ∈ s, pySpace c = true) :
    pySplit (l ++ s) = pySplit l :=
  splitWsAux_append_space l hs []

/-- `pySplit` ignores leading whitespace. -/
theorem pySplit_space_cons {c : Char} {l : List Char} (hc : pySpace c = true) :
    pySplit (c :: l) = pySplit l := by
  show splitWsAux (c :: l) [] = splitWsAux l []
  rw [splitWsAux, if_pos hc]
  simp

/-- `dropWhile` is the identity on lists whose characters all fail the
predicate. -/
theorem dropWhile_of_all_neg {p : Char → Bool} :
    ∀ {l : List Char}, (∀ c ∈ l, p c = false) → l.dropWhile p = l := by
  intro l
  induction l with
  | nil => intro _; rfl
  | cons c cs _ =>
    intro h
    rw [List.dropWhile_cons, if_neg (by simp [h c (by simp)])]

/-- `pyStrip` is the identity on whitespace-free strings. -/
theorem pyStrip_no_space {t : List Char} (h : ∀ c ∈ t, pySpace c = false) :
    pyStrip t = t := by
  unfold pyStrip
  rw [dropWhile_of_all_neg h,
    dropWhile_of_all_neg (fun c hc => h c (List.mem_reverse.mp hc)),
    List.reverse_reverse]

/-- Every `pySplit` token is non-empty and whitespace-free. -/
theorem pySplit_tokens_aux :
    ∀ (l acc : List Char), (∀ c ∈ acc, pySpace c = false) →
      ∀ t ∈ splitWsAux l acc, t ≠ [] ∧ ∀ c ∈ t, pySpace c = false := by
  intro l
  induction l with
  | nil =>
    intro acc hacc t ht
    rw [splitWsAux] at ht
    by_cases he : acc.isEmpty
    · rw [if_pos he] at ht
      cases ht
    · rw [if_neg he] at ht
      have : t = acc.reverse := by simpa using ht
      subst this
      refine ⟨?_, fun c hc => hacc c (List.mem_reverse.mp hc)⟩
      intro hnil
      apply he
      rw [List.isEmpty_iff]
      simpa using congrArg List.reverse hnil
  | cons c cs ih =>
    intro acc hacc t ht
    rw [splitWsAux] at ht
    by_cases hc : pySpace c
    · rw [if_pos hc] at ht
      by_cases he : acc.isEmpty
      · rw [if_pos he] at ht
        exact ih [] (by simp) t ht
      · rw [if_neg he] at ht
        rcases List.mem_cons.mp ht with rfl | ht'
        · refine ⟨?_, fun d hd => hacc d (List.mem_reverse.mp hd)⟩
          intro hnil
          apply he
          rw [List.isEmpty_iff]
          simpa using congrArg List.reverse hnil
        · exact ih [] (by simp) t ht'
    · rw [if_neg hc] at ht
      refine ih (c :: acc) ?_ t ht
      intro d hd
      rcases List.mem_cons.mp hd with rfl | hd'
      · simpa using hc
      · exact hacc d hd'

/-- Every `pySplit` token is non-empty and whitespace-free. -/
theorem pySplit_tokens {l t : List Char} (h : t ∈ pySplit l) :
    t ≠ [] ∧ ∀ c ∈ t, pySpace c = false :=
  pySplit_tokens_aux l [] (by simp) t h

/-- `pySplit` ignores a whitespace-only prefix. -/
theorem pySplit_space_lead :
    ∀ (s : List Char), (∀ c ∈ s, pySpace c = true) →
      ∀ l, pySplit (s ++ l) = pySplit l := by
  intro s
  induction s with
  | nil => intro _ l; rfl
  | cons c s' ih =>
    intro hs l
    rw [List.cons_append, pySplit_space_cons (hs c (by simp))]
    exact ih (fun d hd => hs d (by simp [hd])) l

/-- Splitting after stripping is splitting. -/
theorem pySplit_pyStrip (l : List Char) : pySplit (pyStrip l) = pySplit l := by
  have hdecomp : l = l.takeWhile pySpace ++ l.dropWhile pySpace :=
    (List.takeWhile_append_dropWhile pySpace l).symm
  have hmid : l.dropWhile pySpace
      = pyStrip l ++ ((l.dropWhile pySpace).reverse.takeWhile pySpace).reverse := by
    unfold pyStrip
    have h1 : (l.dropWhile pySpace).reverse
        = (l.dropWhile pySpace).reverse.takeWhile pySpace ++
          (l.dropWhile pySpace).reverse.dropWhile pySpace :=
      (List.takeWhile_append_dropWhile pySpace _).symm
    calc l.dropWhile pySpace
        = (l.dropWhile pySpace).reverse.reverse := (List.reverse_reverse _).symm
      _ = ((l.dropWhile pySpace).reverse.takeWhile pySpace ++
            (l.dropWhile pySpace).reverse.dropWhile pySpace).reverse := by rw [← h1]
      _ = ((l.dropWhile pySpace).reverse.dropWhile pySpace).reverse ++
            ((l.dropWhile pySpace).reverse.takeWhile pySpace).reverse := by
              rw [List.reverse_append]
  have htail : ∀ c ∈ ((l.dropWhile pySpace).reverse.takeWhile pySpace).reverse,
      pySpace c = true :=
    fun c hc => List.mem_takeWhile_imp (List.mem_reverse.mp hc)
  have hlead : ∀ c ∈ l.takeWhile pySpace, pySpace c = true :=
    fun c hc => List.mem_takeWhile_imp hc
  calc pySplit (pyStrip l)
      = pySplit (pyStrip l ++ ((l.dropWhile pySpace).reverse.takeWhile pySpace).reverse) :=
        (pySplit_append_space htail).symm
    _ = pySplit (l.dropWhile pySpace) := by rw [← hmid]
    _ = pySplit l := by
        conv_rhs => rw [hdecomp]
        rw [pySplit_space_lead _ hlead]


/-! ## Specification-side reading of the parser (claim C3)

The amended claim is settled as a refinement: `parseSpec` below is written
from the amended claim's wording and proved equal to the source embedding
`parse_article_response` on *every* input — covering in particular the
canonical `HASHTAGS: #a #b` shape (whitespace after the colon), markers
whose whitespace run crosses a line break, a marker line ending at the end
of the text, and texts with several marker occurrences. -/

/-- Search step: a live marker at the head is the match. -/
theorem findMarkerTail_cons_live {c : Char} {cs : List Char}
    (h : liveMarkerAt (c :: cs) = true) :
    findMarkerTail (c :: cs) = some ((c :: cs).drop 9) := by
  rw [findMarkerTail, if_pos h]

/-- Search step: no live marker at the head, the search moves on. -/
theorem findMarkerTail_cons_nolive {c : Char} {cs : List Char}
    (h : liveMarkerAt (c :: cs) = false) :
    findMarkerTail (c :: cs) = findMarkerTail cs := by
  rw [findMarkerTail, if_neg (by simp [h])]

/-- The tail found by the search leaves room for the marker before it. -/
theorem findMarkerTail_length :
    ∀ {l r : List Char}, findMarkerTail l = some r → 9 + r.length ≤ l.length := by
  intro l
  induction l with
  | nil => intro r h; cases h
  | cons c cs ih =>
    intro r h
    by_cases hlive : liveMarkerAt (c :: cs)
    · rw [findMarkerTail_cons_live hlive] at h
      injection h with hr
      have h2 := hlive
      unfold liveMarkerAt at h2
      rw [Bool.and_eq_true] at h2
      have h9 : 9 ≤ (c :: cs).length := by
        have hp := List.isPrefixOf_iff_prefix.mp h2.1
        have := hp.length_le
        simpa [hashtagsMarker] using this
      rw [← hr]
      simp only [List.length_drop]
      omega
    · rw [findMarkerTail_cons_nolive (by simpa using hlive)] at h
      have := ih h
      simp only [List.length_cons]
      omega

/-- Spec-side group of a match with post-marker tail `r`: the text from the
first non-whitespace character through the end of that character's line —
or, when the whole tail is whitespace, just its final character. -/
def groupSpec (r : List Char) : List Char :=
  if r.all pySpace then r.reverse.take 1
  else (r.dropWhile pySpace).takeWhile (fun c => c != '\n')

/-- Spec-side remainder after a match: what follows the group's line end
(nothing when the whole tail was whitespace). -/
def segmentAfter (r : List Char) : List Char :=
  if r.all pySpace then []
  else (r.dropWhile pySpace).dropWhile (fun c => c != '\n')

/-- The spec-side remainder never lengthens the tail. -/
theorem segmentAfter_length (r : List Char) : (segmentAfter r).length ≤ r.length := by
  unfold segmentAfter
  by_cases hall : r.all pySpace
  · rw [if_pos hall]; simp
  · rw [if_neg hall]
    calc ((r.dropWhile pySpace).dropWhile (fun c => c != '\n')).length
        ≤ (r.dropWhile pySpace).length := (List.dropWhile_suffix _).length_le
      _ ≤ r.length := (List.dropWhile_suffix _).length_le

/-- The group of the source embedding is the spec-side group. -/
theorem markerGroup_eq_groupSpec (r : List Char) : markerGroup r = groupSpec r := by
  by_cases hall : r.all pySpace
  · have hdw : r.dropWhile pySpace = [] := by
      rw [List.dropWhile_eq_nil_iff]
      exact fun x hx => List.all_eq_true.mp hall x hx
    simp only [markerGroup, groupSpec, hdw, List.isEmpty_nil, if_true, if_pos hall]
    cases hlast : r.getLast? with
    | none =>
      have : r = [] := List.getLast?_eq_none_iff.mp hlast
      subst this
      rfl
    | some c =>
      obtain ⟨ys, hys⟩ := List.getLast?_eq_some_iff.mp hlast
      subst hys
      simp
  · have hdw : r.dropWhile pySpace ≠ [] := by
      intro hctr
      rw [List.dropWhile_eq_nil_iff] at hctr
      exact hall (List.all_eq_true.mpr fun x hx => hctr x hx)
    simp only [markerGroup, groupSpec, if_neg hall]
    rw [if_neg (by simpa [List.isEmpty_iff] using hdw)]

/-- The span consumed by a match leaves exactly the spec-side remainder. -/
theorem drop_markerMatchLen (r : List Char) :
    r.drop (markerMatchLen r) = segmentAfter r := by
  by_cases hall : r.all pySpace
  · have hdw : r.dropWhile pySpace = [] := by
      rw [List.dropWhile_eq_nil_iff]
      exact fun x hx => List.all_eq_true.mp hall x hx
    simp only [markerMatchLen, segmentAfter, hdw, List.isEmpty_nil, if_true, if_pos hall]
    exact List.drop_length r
  · have hdw : r.dropWhile pySpace ≠ [] := by
      intro hctr
      rw [List.dropWhile_eq_nil_iff] at hctr
      exact hall (List.all_eq_true.mpr fun x hx => hctr x hx)
    simp only [markerMatchLen, segmentAfter, if_neg hall]
    rw [if_neg (by simpa [List.isEmpty_iff] using hdw)]
    have hsplit : r.drop ((r.takeWhile pySpace).length +
        ((r.dropWhile pySpace).takeWhile (fun c => c != '\n')).length)
        = (r.dropWhile pySpace).drop
            (((r.dropWhile pySpace).takeWhile (fun c => c != '\n')).length) := by
      rw [← List.drop_drop, drop_length_takeWhile]
    rw [hsplit, drop_length_takeWhile]

/-- Spec-side removal, following the amended claim: delete each matched
segment — the marker, its following whitespace run, and the group — and
resume scanning right after it, keeping the text before the match and the
text beyond the group's line end. -/
def stripSegments (l : List Char) : List Char :=
  match h : findMarkerTail l with
  | none => l
  | some r => l.take (l.length - (9 + r.length)) ++ stripSegments (segmentAfter r)
termination_by l.length
decreasing_by
  simp_wf
  have h9 := findMarkerTail_length h
  have hseg := segmentAfter_length r
  omega

/-- Unfolding of `stripSegments` when the search fails. -/
theorem stripSegments_of_none {l : List Char} (h : findMarkerTail l = none) :
    stripSegments l = l := by
  unfold stripSegments
  split
  · rfl
  · rename_i r heq
    rw [h] at heq
    cases heq

/-- Unfolding of `stripSegments` at the first match. -/
theorem stripSegments_of_some {l r : List Char} (h : findMarkerTail l = some r) :
    stripSegments l
      = l.take (l.length - (9 + r.length)) ++ stripSegments (segmentAfter r) := by
  unfold stripSegments
  split
  · rename_i heq
    rw [h] at heq
    cases heq
  · rename_i r' heq
    rw [h] at heq
    injection heq with hr
    subst hr
    congr 1
    rw [stripSegments]

/-- Fuel-indexed equivalence of the `re.sub` scanner and the spec-side
segment removal. -/
theorem subHashtags_eq_stripSegments_fuel :
    ∀ (n : Nat) (l : List Char), l.length ≤ n → subHashtags l = stripSegments l := by
  intro n
  induction n with
  | zero =>
    intro l hl
    have : l = [] := List.length_eq_zero.mp (Nat.le_zero.mp hl)
    subst this
    rw [stripSegments_of_none (show findMarkerTail [] = none from rfl)]
    rfl
  | succ n ih =>
    intro l hl
    cases hfind : findMarkerTail l with
    | none => rw [subHashtags_of_findMarkerTail_none hfind, stripSegments_of_none hfind]
    | some r =>
      obtain ⟨a, ha1, ha2⟩ := findMarkerTail_scan hfind
      rw [stripSegments_of_some hfind, ha2, drop_markerMatchLen]
      have h9 := findMarkerTail_length hfind
      congr 1
      · have hlen : l.length - (9 + r.length) = a.length := by
          have := congrArg List.length ha1
          simp [hashtagsMarker] at this
          omega
        rw [hlen, ha1, List.append_assoc]
        exact (List.take_left a (hashtagsMarker ++ r)).symm
      · apply ih
        have hseg := segmentAfter_length r
        omega

/-- The `re.sub` scanner agrees with the spec-side segment removal on
every text. -/
theorem subHashtags_eq_stripSegments (l : List Char) :
    subHashtags l = stripSegments l :=
  subHashtags_eq_stripSegments_fuel l.length l (Nat.le_refl _)

/-- The strip/split/filter/strip chain of the source collapses to a plain
whitespace split of the group. -/
theorem hashtagsChain_eq_pySplit (g : List Char) :
    ((pySplit (pyStrip g)).filter (fun tag => !(pyStrip tag).isEmpty)).map pyStrip
      = pySplit g := by
  have htok : ∀ t ∈ pySplit (pyStrip g), pyStrip t = t := fun t ht =>
    pyStrip_no_space (pySplit_tokens ht).2
  have hne : ∀ t ∈ pySplit (pyStrip g), (!(pyStrip t).isEmpty) = true := by
    intro t ht
    rw [htok t ht]
    simp [List.isEmpty_iff, (pySplit_tokens ht).1]
  rw [List.filter_eq_self.mpr hne, List.map_congr_left htok, List.map_id', pySplit_pyStrip]

/-- The parser as the amended claim words it: find the first occurrence of
the marker followed by at least one character; hashtags are the
whitespace-split tokens of that match's group (`groupSpec`); content is
the text with every matched segment removed (`stripSegments`), trimmed;
with no such occurrence, the text is returned unchanged with no hashtags. -/
def parseSpec (body : List Char) : List Char × List (List Char) :=
  match findMarkerTail body with
  | none => (body, [])
  | some r => (pyStrip (stripSegments body), pySplit (groupSpec r))

/-- Declarative characterization of the search: it succeeds with tail `r`
exactly when the text decomposes around a live marker occurrence with tail
`r` whose position is leftmost among all live occurrences. -/
theorem findMarkerTail_some_iff (l r : List Char) :
    findMarkerTail l = some r ↔
      ∃ a, l = a ++ hashtagsMarker ++ r ∧ r ≠ [] ∧
        ∀ a' b, l = a' ++ hashtagsMarker ++ b → b ≠ [] → a.length ≤ a'.length := by
  constructor
  · intro h
    induction l with
    | nil => cases h
    | cons c cs ih =>
      by_cases hlive : liveMarkerAt (c :: cs)
      · rw [findMarkerTail_cons_live hlive] at h
        injection h with hr
        have h2 := hlive
        unfold liveMarkerAt at h2
        rw [Bool.and_eq_true] at h2
        obtain ⟨hp, hne⟩ := h2
        obtain ⟨t, ht⟩ := List.isPrefixOf_iff_prefix.mp hp
        have hdt : (c :: cs).drop 9 = t := by
          rw [← ht]
          exact List.drop_left' rfl
        refine ⟨[], ?_, ?_, fun a' b _ _ => by simp⟩
        · rw [List.nil_append, ← hr, hdt]
          exact ht.symm
        · rw [← hr]
          intro hnil
          rw [hnil] at hne
          simp at hne
      · rw [findMarkerTail_cons_nolive (by simpa using hlive)] at h
        obtain ⟨a, ha1, hrne, hmin⟩ := ih h
        refine ⟨c :: a, by rw [ha1]; simp [List.append_assoc], hrne, ?_⟩
        intro a' b heq hbne
        cases a' with
        | nil =>
          exfalso
          rw [List.nil_append] at heq
          apply hlive
          have hp : hashtagsMarker.isPrefixOf (c :: cs) = true :=
            List.isPrefixOf_iff_prefix.mpr ⟨b, heq.symm⟩
          have hbd : b = (c :: cs).drop 9 := by
            rw [heq, show (9 : Nat) = hashtagsMarker.length from rfl, List.drop_left]
          unfold liveMarkerAt
          rw [hp, Bool.true_and, ← hbd]
          simpa [List.isEmpty_iff] using hbne
        | cons c0 a'' =>
          rw [List.cons_append, List.cons_append] at heq
          injection heq with _ h2
          have := hmin a'' b h2 hbne
          simp only [List.length_cons]
          omega
  · rintro ⟨a, heq, hrne, hmin⟩
    subst heq
    induction a with
    | nil =>
      rw [List.nil_append]
      obtain ⟨c, cs, hcons⟩ : ∃ c cs, hashtagsMarker ++ r = c :: cs :=
        ⟨'H', ['A', 'S', 'H', 'T', 'A', 'G', 'S', ':'] ++ r, rfl⟩
      have hdrop : (hashtagsMarker ++ r).drop 9 = r := List.drop_left' rfl
      have hlive : liveMarkerAt (hashtagsMarker ++ r) = true := by
        unfold liveMarkerAt
        rw [isPrefixOf_append_self, Bool.true_and, hdrop]
        simpa [List.isEmpty_iff] using hrne
      rw [hcons] at hlive ⊢
      rw [findMarkerTail_cons_live hlive, ← hcons, hdrop]
    | cons c0 a' ih =>
      have hnotlive : liveMarkerAt (c0 :: (a' ++ hashtagsMarker ++ r)) = false := by
        by_contra hx
        have hlv : liveMarkerAt (c0 :: (a' ++ hashtagsMarker ++ r)) = true := by
          simpa using hx
        have h2 := hlv
        unfold liveMarkerAt at h2
        rw [Bool.and_eq_true] at h2
        obtain ⟨hp, hne⟩ := h2
        obtain ⟨t, ht⟩ := List.isPrefixOf_iff_prefix.mp hp
        have hdt : (c0 :: (a' ++ hashtagsMarker ++ r)).drop 9 = t := by
          rw [← ht]
          exact List.drop_left' rfl
        have htne : t ≠ [] := by
          intro hnil
          rw [hdt, hnil] at hne
          simp at hne
        have hshape : (c0 :: a') ++ hashtagsMarker ++ r
            = c0 :: (a' ++ hashtagsMarker ++ r) := by
          simp [List.cons_append]
        have hdec : (c0 :: a') ++ hashtagsMarker ++ r = [] ++ hashtagsMarker ++ t := by
          rw [List.nil_append, hshape, ← ht]
        have := hmin [] t hdec htne
        simp at this
      have hstep : (c0 :: a') ++ hashtagsMarker ++ r
          = c0 :: (a' ++ hashtagsMarker ++ r) := by
        simp [List.cons_append]
      rw [hstep, findMarkerTail_cons_nolive hnotlive]
      apply ih
      intro a'' b heq hbne
      have hdec2 : (c0 :: a') ++ hashtagsMarker ++ r = (c0 :: a'') ++ hashtagsMarker ++ b := by
        rw [hstep, heq]
        simp [List.cons_append, List.append_assoc]
      have := hmin (c0 :: a'') b hdec2 hbne
      simpa using this

/-- C3, amended: the parser is extensionally equal, on *every* input, to
the specification reading `parseSpec` — first live marker occurrence
(unanchored, leftmost, not last; characterized declaratively by the second
conjunct), hashtags = whitespace-split tokens of that match's group (the
text from the first non-whitespace character after the marker through the
end of that character's line, or the final character when only whitespace
follows), content = the text with every matched segment removed and the
text beyond each group's line end retained, then trimmed; and the search
fails exactly on texts with no live marker occurrence (third conjunct), in
which case the input is returned unchanged with no hashtags. -/
theorem parse_marker_amended :
    (∀ body, parse_article_response body = parseSpec body)
    ∧ (∀ body r, findMarkerTail body = some r ↔
        ∃ a, body = a ++ hashtagsMarker ++ r ∧ r ≠ [] ∧
          ∀ a' b, body = a' ++ hashtagsMarker ++ b → b ≠ [] → a.length ≤ a'.length)
    ∧ (∀ body, findMarkerTail body = none ↔ NoLiveMarker body) := by
  refine ⟨?_, fun body r => findMarkerTail_some_iff body r,
    fun body => findMarkerTail_eq_none_iff⟩
  intro body
  cases hfind : findMarkerTail body with
  | none => simp only [parse_article_response, parseSpec, hfind]
  | some r =>
    simp only [parse_article_response, parseSpec, hfind]
    rw [subHashtags_eq_stripSegments, markerGroup_eq_groupSpec, hashtagsChain_eq_pySplit]

/-- Witness for `parse_marker_amended`: the refinement instantiated at the
canonical marker line, and the search characterization extracted for a
mid-line marker occurrence. -/
theorem parse_marker_amended_witness :
    parse_article_response "body\nHASHTAGS: #a #b".data
      = parseSpec "body\nHASHTAGS: #a #b".data
    ∧ (∃ a, "xHASHTAGS:y".data = a ++ hashtagsMarker ++ "y".data ∧ "y".data ≠ [] ∧
        ∀ a' b, "xHASHTAGS:y".data = a' ++ hashtagsMarker ++ b → b ≠ [] →
          a.length ≤ a'.length) :=
  ⟨parse_marker_amended.1 "body\nHASHTAGS: #a #b".data,
   (parse_marker_amended.2.1 "xHASHTAGS:y".data "y".data).mp (by decide)⟩
